import Mathlib

/-!
Verification development for the extensible GC hook layer declared in
`src/julia_gcext.h`. The repository contains only the C header (declarations
and documentation comments); the functions' bodies live outside the repository.
Following the header's contracts and the design document, each operation is
modelled as an executable Lean function over an explicit state, and the
documented properties are proved about those models.
-/

namespace GCExt

/-- Object identifiers stand in for `jl_value_t *` pointers. -/
abbrev ObjId := Nat

/-- Callback handles stand in for C function pointers (`jl_gc_cb_*_t`). -/
abbrev Handle := Nat

/-- Modelled from the spec: the seven callback kinds of the Callback Registry
(`jl_gc_set_cb_root_scanner` .. `jl_gc_set_cb_notify_gc_pressure`); the
registration bookkeeping itself is not in the repository, only the setter
declarations are. -/
inductive CallbackKind
  | RootScanner
  | TaskScanner
  | PreGC
  | PostGC
  | ExternalAlloc
  | ExternalFree
  | MemoryPressure
deriving DecidableEq

/-- Modelled from the spec: the shared registration update behind all seven
`jl_gc_set_cb_*` setters, whose bodies are not in the repository.
`enable = true` appends the handle if absent; `enable = false` removes it if
present; registrations for a kind form an ordered set (insertion order,
unique by handle). -/
def setCb (l : List Handle) (cb : Handle) (enable : Bool) : List Handle :=
  if enable then
    if cb ∈ l then l else l ++ [cb]
  else
    l.filter (fun h => decide (h ≠ cb))

/-- Per-kind ordered registration lists of the Callback Registry. -/
structure Registry where
  rootScanners : List Handle
  taskScanners : List Handle
  preGC : List Handle
  postGC : List Handle
  externalAlloc : List Handle
  externalFree : List Handle
  memoryPressure : List Handle
deriving DecidableEq

/-- Modelled from the spec: `jl_gc_set_cb_root_scanner` registers or
unregisters a root scanner callback via the shared update. -/
def jl_gc_set_cb_root_scanner (r : Registry) (cb : Handle) (enable : Bool) : Registry :=
  { r with rootScanners := setCb r.rootScanners cb enable }

/-- Modelled from the spec: `jl_gc_set_cb_task_scanner`. -/
def jl_gc_set_cb_task_scanner (r : Registry) (cb : Handle) (enable : Bool) : Registry :=
  { r with taskScanners := setCb r.taskScanners cb enable }

/-- Modelled from the spec: `jl_gc_set_cb_pre_gc`. -/
def jl_gc_set_cb_pre_gc (r : Registry) (cb : Handle) (enable : Bool) : Registry :=
  { r with preGC := setCb r.preGC cb enable }

/-- Modelled from the spec: `jl_gc_set_cb_post_gc`. -/
def jl_gc_set_cb_post_gc (r : Registry) (cb : Handle) (enable : Bool) : Registry :=
  { r with postGC := setCb r.postGC cb enable }

/-- Modelled from the spec: `jl_gc_set_cb_notify_external_alloc`. -/
def jl_gc_set_cb_notify_external_alloc (r : Registry) (cb : Handle) (enable : Bool) : Registry :=
  { r with externalAlloc := setCb r.externalAlloc cb enable }

/-- Modelled from the spec: `jl_gc_set_cb_notify_external_free`. -/
def jl_gc_set_cb_notify_external_free (r : Registry) (cb : Handle) (enable : Bool) : Registry :=
  { r with externalFree := setCb r.externalFree cb enable }

/-- Modelled from the spec: `jl_gc_set_cb_notify_gc_pressure`. -/
def jl_gc_set_cb_notify_gc_pressure (r : Registry) (cb : Handle) (enable : Bool) : Registry :=
  { r with memoryPressure := setCb r.memoryPressure cb enable }

/-- State of the Conservative Scan Subsystem: the global enabled flag together
with a count of the full collections the subsystem has triggered. -/
structure ConservState where
  enabled : Bool
  fullCollections : Nat
deriving DecidableEq

/-- Modelled from the spec: `jl_gc_enable_conservative_gc_support`, whose body
is not in the repository. Per the header it returns whether support was
already enabled; on first activation it triggers one full collection to build
the reverse address index. -/
def jl_gc_enable_conservative_gc_support (s : ConservState) : ConservState × Bool :=
  if s.enabled then
    (s, true)
  else
    ({ enabled := true, fullCollections := s.fullCollections + 1 }, false)

/-- Modelled from the spec: `jl_gc_conservative_gc_support_enabled`, a pure
query of the enabled flag. -/
def jl_gc_conservative_gc_support_enabled (s : ConservState) : Bool :=
  s.enabled

/-- A task's stack bookkeeping: the total stack range plus the raw best-effort
markers from which the active range is approximated. Addresses are modelled
as naturals. -/
structure Task where
  total_lo : Nat
  total_hi : Nat
  approx_lo : Nat
  approx_hi : Nat
deriving DecidableEq

/-- Modelled from the spec: `jl_active_task_stack`, whose body is not in the
repository. It reports `(active_start, active_end, total_start, total_end)`;
the active part is a best-effort approximation, possibly wider than the true
live range, obtained by clamping the raw markers into the total stack range. -/
def jl_active_task_stack (t : Task) : Nat × Nat × Nat × Nat :=
  let as := min t.total_hi (max t.total_lo t.approx_lo)
  let ae := min t.total_hi (max as t.approx_hi)
  (as, ae, t.total_lo, t.total_hi)

/-- A collector pool page: its address range together with the base address
and size of each object allocated in it. -/
structure PoolPage where
  lo : Nat
  hi : Nat
  objs : List (Nat × Nat)
deriving DecidableEq

/-- The collector's page metadata consulted by the conservative reverse
lookup: the recognized pool pages, plus the external allocations the embedder
reported through the notification callbacks (invisible to the internal
lookup). -/
structure MemMap where
  pages : List PoolPage
  externals : List (Nat × Nat)
deriving DecidableEq

/-- Whether `p` lies in the half-open range `[lo, hi)`. -/
def inRange (p lo hi : Nat) : Bool :=
  decide (lo ≤ p) && decide (p < hi)

/-- The recognized pool page containing `p`, if any. -/
def findPage (m : MemMap) (p : Nat) : Option PoolPage :=
  m.pages.find? (fun pg => inRange p pg.lo pg.hi)

/-- The base address of the object of `objs` containing `p`, if any
(interior pointers included). -/
def findBase (objs : List (Nat × Nat)) (p : Nat) : Option Nat :=
  (objs.find? (fun ob => inRange p ob.1 (ob.1 + ob.2))).map (fun ob => ob.1)

/-- Modelled from the spec: `jl_gc_internal_obj_base_ptr`, whose body is not
in the repository. Per the header it returns the base address of a memory
block assuming it is stored in a julia memory pool and NULL otherwise; it only
works for internal pool allocations, requires conservative support to be
enabled to work reliably, and is only valid to call from within a GC context
(outside one, no reliable answer is produced, modelled as `none`). -/
def jl_gc_internal_obj_base_ptr (inGC enabled : Bool) (m : MemMap) (p : Nat) : Option Nat :=
  if inGC && enabled then
    match findPage m p with
    | some pg => findBase pg.objs p
    | none => none
  else
    none

/-- A foreign object: a type-tagged heap allocation carrying the identifiers
of the objects it references (traced by its custom mark function) and the
one-shot cleanup-scheduled flag set by `jl_gc_schedule_foreign_sweepfunc`. -/
structure ForeignObject where
  id : ObjId
  refs : List ObjId
  sweepScheduled : Bool
deriving DecidableEq

/-- The phases of the Collection Cycle Orchestrator's state machine. -/
inductive GCPhase
  | Idle
  | PreGC
  | RootMark
  | TaskMark
  | Trace
  | Sweep
  | PostGC
deriving DecidableEq

/-- Whether the phase is an active tracing phase, i.e. the calling thread is
inside a root scanner callback, a task scanner callback, or a custom mark
function; only there are the mark-queue enqueue operations legal. -/
def tracingLegal : GCPhase → Bool
  | .RootMark => true
  | .TaskMark => true
  | .Trace => true
  | _ => false

/-- The mutable collector state seen by the extension API: the foreign heap,
the orchestrator's current phase, the per-cycle mark bookkeeping (marked set
and worklist), and a count of reported protocol violations (reported,
non-fatal). -/
structure GCState where
  heap : List ForeignObject
  phase : GCPhase
  marked : List ObjId
  queue : List ObjId
  violations : Nat
deriving DecidableEq

/-- Modelled from the spec: `jl_gc_mark_queue_obj`, whose body is not in the
repository. Inside a tracing phase it pushes the object if not already marked
this cycle and returns whether it was newly enqueued; an object already marked
this cycle is not pushed again. Outside a tracing phase the call is a
protocol violation: it is reported (non-fatally) and nothing is enqueued. -/
def jl_gc_mark_queue_obj (s : GCState) (i : ObjId) : GCState × Bool :=
  if tracingLegal s.phase then
    if i ∈ s.marked then
      (s, false)
    else
      ({ s with marked := i :: s.marked, queue := i :: s.queue }, true)
  else
    ({ s with violations := s.violations + 1 }, false)

/-- Modelled from the spec: `jl_gc_mark_queue_objarray`, whose body is not in
the repository: batched child-reference tracing, enqueueing each object of the
array as `jl_gc_mark_queue_obj` does (the `parent` argument only feeds
generational remembered-set bookkeeping, outside this model). Outside a
tracing phase the call is one reported, non-fatal protocol violation. -/
def jl_gc_mark_queue_objarray (s : GCState) (_parent : ObjId) (objs : List ObjId) : GCState :=
  if tracingLegal s.phase then
    objs.foldl (fun t o => (jl_gc_mark_queue_obj t o).1) s
  else
    { s with violations := s.violations + 1 }

/-- Lookup of a foreign object by identifier. -/
def findObj (h : List ForeignObject) (i : ObjId) : Option ForeignObject :=
  h.find? (fun o => decide (o.id = i))

/-- Set the one-shot cleanup-scheduled flag on the object with identifier
`i`. -/
def setSweepFlag (h : List ForeignObject) (i : ObjId) : List ForeignObject :=
  h.map (fun o => if o.id = i then { o with sweepScheduled := true } else o)

/-- Modelled from the spec: the heap-level effect of
`jl_gc_schedule_foreign_sweepfunc`: sets the one-shot flag; a second call on
the same object leaves the flag set. -/
def scheduleSweepHeap (h : List ForeignObject) (i : ObjId) : List ForeignObject :=
  match findObj h i with
  | none => h
  | some o => if o.sweepScheduled then h else setSweepFlag h i

/-- Modelled from the spec: `jl_gc_schedule_foreign_sweepfunc`, whose body is
not in the repository. Per the header, only calling it on an object of a
foreign type will result in the custom sweep function being called, and this
must be done at most once per object: the first call sets the one-shot flag;
a second call on the same object is a no-op reported as a protocol violation
for diagnostics, not reversing prior state. -/
def jl_gc_schedule_foreign_sweepfunc (s : GCState) (i : ObjId) : GCState :=
  match findObj s.heap i with
  | none => s
  | some o =>
    if o.sweepScheduled then
      { s with violations := s.violations + 1 }
    else
      { s with heap := setSweepFlag s.heap i }

/-- Observable events of one collection cycle: an object's references being
traced during the trace phase, a scheduled object's custom sweep (cleanup)
function being invoked during the sweep phase, and an object's storage being
reclaimed. -/
inductive Event
  | traced (i : ObjId)
  | cleanup (i : ObjId)
  | reclaimed (i : ObjId)
deriving DecidableEq

/-- Whether an event is a trace event. -/
def isTraced : Event → Bool
  | .traced _ => true
  | _ => false

/-- The number of cleanup invocations for object `i` in an event list. -/
def countCleanup (i : ObjId) (es : List Event) : Nat :=
  es.countP (fun e => decide (e = Event.cleanup i))

/-- The references of the object with identifier `i` (empty if `i` is not a
foreign heap object). -/
def refsOf (h : List ForeignObject) (i : ObjId) : List ObjId :=
  match findObj h i with
  | some o => o.refs
  | none => []

/-- Mark an object and push it on the worklist unless it is already marked
this cycle, over a `(marked, queue)` pair. -/
def enq1 (mq : List ObjId × List ObjId) (r : ObjId) : List ObjId × List ObjId :=
  if r ∈ mq.1 then mq else (r :: mq.1, r :: mq.2)

/-- Modelled from the spec: the orchestrator's trace phase, which drains the
mark queue until empty; each dequeued object has its references traced and the
newly marked ones enqueued. Returns the final marked set and the trace order.
The fuel only bounds the recursion; `runCycle` supplies enough for the queue
to drain, since each object is pushed at most once. -/
def traceLoop (h : List ForeignObject) : Nat → List ObjId → List ObjId → List ObjId × List ObjId
  | 0, marked, _ => (marked, [])
  | Nat.succ fuel, marked, queue =>
    match queue with
    | [] => (marked, [])
    | o :: rest =>
      let mq := (refsOf h o).foldl enq1 (marked, rest)
      let r := traceLoop h fuel mq.1 mq.2
      (r.1, o :: r.2)

/-- Modelled from the spec: the orchestrator's sweep phase over the foreign
heap. Dead (unmarked) objects with the one-shot flag set have their cleanup
function invoked and then their storage reclaimed; dead unflagged objects are
reclaimed without invocation; marked objects survive. -/
def sweepEvents : List ForeignObject → List ObjId → List Event
  | [], _ => []
  | o :: t, marked =>
    if o.id ∈ marked then
      sweepEvents t marked
    else if o.sweepScheduled then
      Event.cleanup o.id :: Event.reclaimed o.id :: sweepEvents t marked
    else
      Event.reclaimed o.id :: sweepEvents t marked

/-- The outcome of one collection cycle: the cycle's marked set, the event
list (all trace events followed by all sweep events), and the surviving
heap. -/
structure CycleResult where
  marked : List ObjId
  events : List Event
  survivors : List ForeignObject
deriving DecidableEq

/-- Fuel bound for the trace loop: it exceeds the number of possible pushes,
since each identifier is pushed at most once and pushes only come from roots
and from references of traced heap objects. -/
def traceFuel (h : List ForeignObject) (roots : List ObjId) : Nat :=
  roots.length + h.foldl (fun n o => n + o.refs.length) 0 + 1

/-- The root-mark and trace phases of one cycle: enqueue the root set, then
drain the queue; returns the final marked set and the trace order. -/
def tracePhase (h : List ForeignObject) (roots : List ObjId) : List ObjId × List ObjId :=
  traceLoop h (traceFuel h roots) (roots.foldl enq1 ([], [])).1 (roots.foldl enq1 ([], [])).2

/-- Modelled from the spec: one collection cycle of the orchestrator, whose
implementation is not in the repository. Root marking enqueues the root set;
the trace phase drains the queue until empty; the sweep phase then visits the
foreign heap as `sweepEvents` does, and marked objects survive. -/
def runCycle (h : List ForeignObject) (roots : List ObjId) : CycleResult :=
  { marked := (tracePhase h roots).1
    events := (tracePhase h roots).2.map Event.traced ++ sweepEvents h (tracePhase h roots).1
    survivors := h.filter (fun o => decide (o.id ∈ (tracePhase h roots).1)) }

/-- A command of a client-visible run: trigger a collection with the given
root set, or schedule an object's custom sweep function. -/
inductive GCCmd
  | collect (roots : List ObjId)
  | schedule (i : ObjId)
deriving DecidableEq

/-- Modelled from the spec: a run of collection cycles interleaved with
`scheduleSweep` calls over a foreign heap, returning the final heap and the
concatenated event trace. -/
def runCmds : List ForeignObject → List GCCmd → List ForeignObject × List Event
  | h, [] => (h, [])
  | h, GCCmd.collect roots :: rest =>
    let c := runCycle h roots
    let r := runCmds c.survivors rest
    (r.1, c.events ++ r.2)
  | h, GCCmd.schedule i :: rest =>
    runCmds (scheduleSweepHeap h i) rest

/-- The identifiers of a foreign heap. -/
def heapIds (h : List ForeignObject) : List ObjId :=
  h.map (fun o => o.id)

/-- A mark-queue operation a root scanner or custom mark function may perform
during the same cycle: enqueue one object or a batched object array. -/
inductive MarkOp
  | enqObj (i : ObjId)
  | enqArr (parent : ObjId) (objs : List ObjId)
deriving DecidableEq

/-- Apply one mark-queue operation to the collector state. -/
def applyMarkOp (s : GCState) : MarkOp → GCState
  | .enqObj i => (jl_gc_mark_queue_obj s i).1
  | .enqArr p os => jl_gc_mark_queue_objarray s p os

/-- Apply a sequence of mark-queue operations to the collector state. -/
def applyMarkOps (s : GCState) (ops : List MarkOp) : GCState :=
  ops.foldl applyMarkOp s

/-- One collection cycle run over the heap of a state on which
`jl_gc_schedule_foreign_sweepfunc` has just been called for `i`. -/
def cycleAfterSchedule (s : GCState) (i : ObjId) (roots : List ObjId) : CycleResult :=
  runCycle (jl_gc_schedule_foreign_sweepfunc s i).heap roots

/-- Claim C4 counterexample: starting from a registry list in which the handle
is already registered, registering it (a no-op) and then unregistering it does
not leave the registered count at its pre-sequence value: the count drops from
one to zero. -/
theorem register_count_counterexample :
    (setCb (setCb [5] 5 true) 5 false).length ≠ ([5] : List Handle).length := by
  decide

/-- Claim C4 (amended): `register(kind, handle, enable)`, modelled by the
shared update `setCb` behind the seven `jl_gc_set_cb_*` setters, appends the
handle only if absent and removes it only if present, so both operations are
idempotent no-ops when re-registering or unregistering an absent handle; and
for a handle that was not registered before the sequence, registering then
unregistering it restores the registered count for that kind. -/
theorem register_idempotent_and_balanced (l : List Handle) (cb : Handle) :
    (cb ∈ l → setCb l cb true = l) ∧
    (cb ∉ l → setCb l cb true = l ++ [cb]) ∧
    (cb ∉ l → setCb l cb false = l) ∧
    cb ∉ setCb l cb false ∧
    (cb ∉ l → (setCb (setCb l cb true) cb false).length = l.length) ∧
    (∀ (r : Registry) (e : Bool),
      (jl_gc_set_cb_root_scanner r cb e).rootScanners = setCb r.rootScanners cb e ∧
      (jl_gc_set_cb_task_scanner r cb e).taskScanners = setCb r.taskScanners cb e ∧
      (jl_gc_set_cb_pre_gc r cb e).preGC = setCb r.preGC cb e ∧
      (jl_gc_set_cb_post_gc r cb e).postGC = setCb r.postGC cb e ∧
      (jl_gc_set_cb_notify_external_alloc r cb e).externalAlloc = setCb r.externalAlloc cb e ∧
      (jl_gc_set_cb_notify_external_free r cb e).externalFree = setCb r.externalFree cb e ∧
      (jl_gc_set_cb_notify_gc_pressure r cb e).memoryPressure = setCb r.memoryPressure cb e) := by
  have hfil : cb ∉ l → l.filter (fun h => decide (h ≠ cb)) = l := by
    intro hcb
    apply List.filter_eq_self.mpr
    intro a ha
    simp only [decide_eq_true_eq]
    intro hac
    exact hcb (hac ▸ ha)
  refine ⟨?_, ?_, ?_, ?_, ?_, ?_⟩
  · intro hcb
    simp [setCb, hcb]
  · intro hcb
    simp [setCb, hcb]
  · intro hcb
    simpa [setCb] using hfil hcb
  · simp [setCb, List.mem_filter]
  · intro hcb
    have h1 : setCb l cb true = l ++ [cb] := by simp [setCb, hcb]
    rw [h1]
    simp only [setCb, List.filter_append]
    rw [hfil hcb]
    simp
  · intro r e
    exact ⟨rfl, rfl, rfl, rfl, rfl, rfl, rfl⟩

/-- Witness for the amended claim C4 at a concrete registry list and handle. -/
theorem register_idempotent_and_balanced_witness :
    (7 : Handle) ∉ ([3] : List Handle) ∧
    setCb [3] 7 true = [3, 7] ∧
    setCb [3] 7 false = [3] ∧
    (setCb (setCb [3] 7 true) 7 false).length = ([3] : List Handle).length := by
  have h := register_idempotent_and_balanced [3] 7
  exact ⟨by decide, h.2.1 (by decide), h.2.2.1 (by decide), h.2.2.2.2.1 (by decide)⟩

/-- Claim C5: `jl_gc_enable_conservative_gc_support` returns whether support
was previously enabled; from a not-yet-enabled state the call returns "not
previously enabled" and triggers exactly one additional full collection, and
every call made once support is enabled returns "already enabled" and leaves
the state (in particular the full-collection count) unchanged. -/
theorem conservative_enable_once (s : ConservState) (h : s.enabled = false) :
    (jl_gc_enable_conservative_gc_support s).2 = false ∧
    (jl_gc_enable_conservative_gc_support s).1.fullCollections = s.fullCollections + 1 ∧
    (jl_gc_enable_conservative_gc_support s).1.enabled = true ∧
    (∀ t : ConservState, t.enabled = true →
      jl_gc_enable_conservative_gc_support t = (t, true)) := by
  refine ⟨?_, ?_, ?_, ?_⟩
  · simp [jl_gc_enable_conservative_gc_support, h]
  · simp [jl_gc_enable_conservative_gc_support, h]
  · simp [jl_gc_enable_conservative_gc_support, h]
  · intro t ht
    simp [jl_gc_enable_conservative_gc_support, ht]

/-- Witness for claim C5 at a concrete disabled state. -/
theorem conservative_enable_once_witness :
    (⟨false, 0⟩ : ConservState).enabled = false ∧
    (jl_gc_enable_conservative_gc_support ⟨false, 0⟩).2 = false ∧
    (jl_gc_enable_conservative_gc_support ⟨false, 0⟩).1.fullCollections = 1 ∧
    jl_gc_enable_conservative_gc_support ⟨true, 1⟩ = (⟨true, 1⟩, true) := by
  have h := conservative_enable_once ⟨false, 0⟩ (by decide)
  exact ⟨by decide, h.1, h.2.1, h.2.2.2 ⟨true, 1⟩ (by decide)⟩

/-- Claim C7: for a task whose total stack range is well formed, the four
bounds reported by `jl_active_task_stack` satisfy
`total_start ≤ active_start ≤ active_end ≤ total_end`: the best-effort active
range is contained in the total stack range. -/
theorem active_task_stack_bounds (t : Task) (h : t.total_lo ≤ t.total_hi) :
    (jl_active_task_stack t).2.2.1 ≤ (jl_active_task_stack t).1 ∧
    (jl_active_task_stack t).1 ≤ (jl_active_task_stack t).2.1 ∧
    (jl_active_task_stack t).2.1 ≤ (jl_active_task_stack t).2.2.2 := by
  simp only [jl_active_task_stack]
  omega

/-- Witness for claim C7 at a concrete mid-execution task. -/
theorem active_task_stack_bounds_witness :
    (⟨10, 100, 5, 120⟩ : Task).total_lo ≤ (⟨10, 100, 5, 120⟩ : Task).total_hi ∧
    (jl_active_task_stack ⟨10, 100, 5, 120⟩).2.2.1 ≤ (jl_active_task_stack ⟨10, 100, 5, 120⟩).1 ∧
    (jl_active_task_stack ⟨10, 100, 5, 120⟩).1 ≤ (jl_active_task_stack ⟨10, 100, 5, 120⟩).2.1 ∧
    (jl_active_task_stack ⟨10, 100, 5, 120⟩).2.1 ≤
      (jl_active_task_stack ⟨10, 100, 5, 120⟩).2.2.2 := by
  have h := active_task_stack_bounds ⟨10, 100, 5, 120⟩ (by decide)
  exact ⟨by decide, h.1, h.2.1, h.2.2⟩

/-- Claim C8: the mark-queue enqueue operations are valid only while the
calling thread is inside an active tracing phase (root scanner, task scanner
or custom mark function). Outside such a phase, `jl_gc_mark_queue_obj` and
`jl_gc_mark_queue_objarray` enqueue nothing and report one protocol
violation, non-fatally (the state is otherwise untouched); inside a tracing
phase no violation is reported. -/
theorem mark_queue_outside_phase_violation (s : GCState) (i parent : ObjId)
    (objs : List ObjId) (h : tracingLegal s.phase = false) :
    jl_gc_mark_queue_obj s i = ({ s with violations := s.violations + 1 }, false) ∧
    jl_gc_mark_queue_objarray s parent objs = { s with violations := s.violations + 1 } ∧
    (∀ t : GCState, tracingLegal t.phase = true →
      (jl_gc_mark_queue_obj t i).1.violations = t.violations) := by
  refine ⟨?_, ?_, ?_⟩
  · simp [jl_gc_mark_queue_obj, h]
  · simp [jl_gc_mark_queue_objarray, h]
  · intro t ht
    by_cases hm : i ∈ t.marked <;> simp [jl_gc_mark_queue_obj, ht, hm]

/-- Witness for claim C8 at a concrete idle-phase state. -/
theorem mark_queue_outside_phase_violation_witness :
    tracingLegal (⟨[], GCPhase.Idle, [], [], 0⟩ : GCState).phase = false ∧
    jl_gc_mark_queue_obj ⟨[], GCPhase.Idle, [], [], 0⟩ 4
      = (⟨[], GCPhase.Idle, [], [], 1⟩, false) ∧
    jl_gc_mark_queue_objarray ⟨[], GCPhase.Idle, [], [], 0⟩ 4 [5, 6]
      = ⟨[], GCPhase.Idle, [], [], 1⟩ := by
  have h := mark_queue_outside_phase_violation ⟨[], GCPhase.Idle, [], [], 0⟩ 4 4 [5, 6]
    (by decide)
  exact ⟨by decide, h.1, h.2.1⟩

/-- Auxiliary: `find?` returns the unique element satisfying the predicate. -/
theorem find_eq_some_of_mem_unique {α : Type} (pred : α → Bool) (l : List α) (x : α)
    (hx : x ∈ l) (hpx : pred x = true) (hu : ∀ y ∈ l, pred y = true → y = x) :
    l.find? pred = some x := by
  induction l with
  | nil => cases hx
  | cons a t ih =>
    by_cases hpa : pred a = true
    · have hax : a = x := hu a (List.mem_cons_self a t) hpa
      rw [List.find?_cons_of_pos t hpa, hax]
    · have hax : x ∈ t := by
        rcases List.mem_cons.mp hx with heq | hmem
        · exact absurd (heq ▸ hpx) hpa
        · exact hmem
      rw [List.find?_cons_of_neg t (by simpa using hpa)]
      exact ih hax (fun y hy hpy => hu y (List.mem_cons_of_mem a hy) hpy)

/-- Claim C6: for an address inside a recognized pool page (pages and objects
not overlapping at it), `jl_gc_internal_obj_base_ptr` returns the base
address of the containing object, interior pointers included; when no
recognized page contains the address, or when conservative support was never
enabled, it returns none — a documented unknown outcome, not an error (the
result type is an option, and the never-enabled answer carries no
information). -/
theorem internal_obj_base_ptr_lookup (m : MemMap) (p : Nat) (pg : PoolPage) (b sz : Nat)
    (inGC enabled : Bool) :
    (inGC = true → enabled = true →
      pg ∈ m.pages → inRange p pg.lo pg.hi = true →
      (∀ q ∈ m.pages, inRange p q.lo q.hi = true → q = pg) →
      (b, sz) ∈ pg.objs → inRange p b (b + sz) = true →
      (∀ ob ∈ pg.objs, inRange p ob.1 (ob.1 + ob.2) = true → ob = (b, sz)) →
      jl_gc_internal_obj_base_ptr inGC enabled m p = some b) ∧
    ((∀ q ∈ m.pages, inRange p q.lo q.hi = false) →
      jl_gc_internal_obj_base_ptr inGC enabled m p = none) ∧
    (enabled = false → jl_gc_internal_obj_base_ptr inGC enabled m p = none) := by
  refine ⟨?_, ?_, ?_⟩
  · intro hg he hpg hin hupg hob hinb huob
    have hfp : findPage m p = some pg :=
      find_eq_some_of_mem_unique _ m.pages pg hpg hin hupg
    have hfb : findBase pg.objs p = some b := by
      have := find_eq_some_of_mem_unique (fun ob => inRange p ob.1 (ob.1 + ob.2))
        pg.objs (b, sz) hob hinb huob
      simp [findBase, this]
    simp [jl_gc_internal_obj_base_ptr, hg, he, hfp, hfb]
  · intro hnone
    have hfp : findPage m p = none := by
      apply List.find?_eq_none.mpr
      intro q hq
      simp [hnone q hq]
    cases hg : inGC <;> cases he : enabled <;>
      simp [jl_gc_internal_obj_base_ptr, hfp]
  · intro he
    cases hg : inGC <;> simp [jl_gc_internal_obj_base_ptr, he]

/-- Witness for claim C6 at a concrete memory map: a recognized page holding
one object, probed at an interior pointer; an address outside every page; and
a disabled subsystem. -/
theorem internal_obj_base_ptr_lookup_witness :
    jl_gc_internal_obj_base_ptr true true ⟨[⟨0, 100, [(8, 16)]⟩], []⟩ 20 = some 8 ∧
    jl_gc_internal_obj_base_ptr true true ⟨[⟨0, 100, [(8, 16)]⟩], []⟩ 200 = none ∧
    jl_gc_internal_obj_base_ptr true false ⟨[⟨0, 100, [(8, 16)]⟩], []⟩ 20 = none := by
  have h1 := internal_obj_base_ptr_lookup ⟨[⟨0, 100, [(8, 16)]⟩], []⟩ 20
    ⟨0, 100, [(8, 16)]⟩ 8 16 true true
  have h2 := internal_obj_base_ptr_lookup ⟨[⟨0, 100, [(8, 16)]⟩], []⟩ 200
    ⟨0, 100, [(8, 16)]⟩ 8 16 true true
  have h3 := internal_obj_base_ptr_lookup ⟨[⟨0, 100, [(8, 16)]⟩], []⟩ 20
    ⟨0, 100, [(8, 16)]⟩ 8 16 true false
  refine ⟨?_, ?_, ?_⟩
  · exact h1.1 rfl rfl (by decide) (by decide) (by decide) (by decide) (by decide) (by decide)
  · exact h2.2.1 (by decide)
  · exact h3.2.2 rfl

/-- Claim C10: the header states preconditions for
`jl_gc_internal_obj_base_ptr` that the design spec does not: the call is only
valid from within a GC context (outside one it yields no answer in the
model), and it only works for internal pool allocations — an address inside
an externally allocated block that lies in no recognized pool page resolves
to none even with conservative support enabled, so the caller must track
external allocations through the `jl_gc_set_cb_notify_external_alloc` and
`jl_gc_set_cb_notify_external_free` callbacks and validate candidate objects
itself. -/
theorem internal_obj_base_ptr_preconditions (m : MemMap) (p a sz : Nat) (enabled : Bool) :
    jl_gc_internal_obj_base_ptr false enabled m p = none ∧
    ((a, sz) ∈ m.externals → a ≤ p → p < a + sz →
      (∀ q ∈ m.pages, inRange p q.lo q.hi = false) →
      jl_gc_internal_obj_base_ptr true enabled m p = none) := by
  constructor
  · simp [jl_gc_internal_obj_base_ptr]
  · intro hext hap hpa hnone
    have hfp : findPage m p = none := by
      apply List.find?_eq_none.mpr
      intro q hq
      simp [hnone q hq]
    cases he : enabled <;> simp [jl_gc_internal_obj_base_ptr, hfp]

/-- Witness for claim C10 at a concrete memory map with one tracked external
allocation and no pool page containing the probed address. -/
theorem internal_obj_base_ptr_preconditions_witness :
    ((50, 10) : Nat × Nat) ∈ (⟨[⟨0, 40, [(8, 16)]⟩], [(50, 10)]⟩ : MemMap).externals ∧
    jl_gc_internal_obj_base_ptr false true ⟨[⟨0, 40, [(8, 16)]⟩], [(50, 10)]⟩ 55 = none ∧
    jl_gc_internal_obj_base_ptr true true ⟨[⟨0, 40, [(8, 16)]⟩], [(50, 10)]⟩ 55 = none := by
  have h := internal_obj_base_ptr_preconditions ⟨[⟨0, 40, [(8, 16)]⟩], [(50, 10)]⟩ 55 50 10 true
  exact ⟨by decide, h.1, h.2 (by decide) (by decide) (by decide) (by decide)⟩

/-- Auxiliary: one enqueue preserves membership in the marked set. -/
theorem marked_mono_obj (s : GCState) (i j : ObjId) (h : i ∈ s.marked) :
    i ∈ (jl_gc_mark_queue_obj s j).1.marked := by
  unfold jl_gc_mark_queue_obj
  split
  · split
    · exact h
    · exact List.mem_cons_of_mem j h
  · exact h

/-- Auxiliary: a fold of enqueues preserves membership in the marked set. -/
theorem marked_mono_fold (objs : List ObjId) (s : GCState) (i : ObjId) (h : i ∈ s.marked) :
    i ∈ (objs.foldl (fun t o => (jl_gc_mark_queue_obj t o).1) s).marked := by
  induction objs generalizing s with
  | nil => exact h
  | cons a t ih => exact ih _ (marked_mono_obj s i a h)

/-- Auxiliary: any mark-queue operation preserves membership in the marked
set. -/
theorem marked_mono_op (s : GCState) (i : ObjId) (op : MarkOp) (h : i ∈ s.marked) :
    i ∈ (applyMarkOp s op).marked := by
  cases op with
  | enqObj j => exact marked_mono_obj s i j h
  | enqArr p os =>
    show i ∈ (jl_gc_mark_queue_objarray s p os).marked
    unfold jl_gc_mark_queue_objarray
    split
    · exact marked_mono_fold os s i h
    · exact h

/-- Auxiliary: a sequence of mark-queue operations preserves membership in
the marked set. -/
theorem marked_mono_ops (ops : List MarkOp) (s : GCState) (i : ObjId) (h : i ∈ s.marked) :
    i ∈ (applyMarkOps s ops).marked := by
  induction ops generalizing s with
  | nil => exact h
  | cons a t ih => exact ih _ (marked_mono_op s i a h)

/-- Auxiliary: one enqueue never changes the phase. -/
theorem phase_preserved_obj (s : GCState) (j : ObjId) :
    (jl_gc_mark_queue_obj s j).1.phase = s.phase := by
  unfold jl_gc_mark_queue_obj
  split
  · split <;> rfl
  · rfl

/-- Auxiliary: a fold of enqueues never changes the phase. -/
theorem phase_preserved_fold (objs : List ObjId) (s : GCState) :
    (objs.foldl (fun t o => (jl_gc_mark_queue_obj t o).1) s).phase = s.phase := by
  induction objs generalizing s with
  | nil => rfl
  | cons a t ih => rw [List.foldl_cons, ih, phase_preserved_obj]

/-- Auxiliary: any mark-queue operation never changes the phase. -/
theorem phase_preserved_op (s : GCState) (op : MarkOp) :
    (applyMarkOp s op).phase = s.phase := by
  cases op with
  | enqObj j => exact phase_preserved_obj s j
  | enqArr p os =>
    show (jl_gc_mark_queue_objarray s p os).phase = s.phase
    unfold jl_gc_mark_queue_objarray
    split
    · exact phase_preserved_fold os s
    · rfl

/-- Auxiliary: a sequence of mark-queue operations never changes the phase. -/
theorem phase_preserved_ops (ops : List MarkOp) (s : GCState) :
    (applyMarkOps s ops).phase = s.phase := by
  induction ops generalizing s with
  | nil => rfl
  | cons a t ih =>
    show (applyMarkOps (applyMarkOp s a) t).phase = s.phase
    rw [ih, phase_preserved_op]

/-- Claim C3: inside a tracing phase, the first `jl_gc_mark_queue_obj` call
for an object not yet marked this cycle returns "newly enqueued" and marks
it; on a state where the object is already marked this cycle the call returns
false and does not push the object again (the state is returned unchanged),
and this holds in particular after any further sequence of mark-queue
operations of the same cycle. -/
theorem mark_queue_obj_first_true_then_false (s : GCState) (i : ObjId) (ops : List MarkOp)
    (hphase : tracingLegal s.phase = true) (hnew : i ∉ s.marked) :
    (jl_gc_mark_queue_obj s i).2 = true ∧
    i ∈ (jl_gc_mark_queue_obj s i).1.marked ∧
    (∀ t : GCState, tracingLegal t.phase = true → i ∈ t.marked →
      jl_gc_mark_queue_obj t i = (t, false)) ∧
    jl_gc_mark_queue_obj (applyMarkOps (jl_gc_mark_queue_obj s i).1 ops) i
      = (applyMarkOps (jl_gc_mark_queue_obj s i).1 ops, false) := by
  have h1 : jl_gc_mark_queue_obj s i
      = ({ s with marked := i :: s.marked, queue := i :: s.queue }, true) := by
    simp [jl_gc_mark_queue_obj, hphase, hnew]
  have hsub : ∀ t : GCState, tracingLegal t.phase = true → i ∈ t.marked →
      jl_gc_mark_queue_obj t i = (t, false) := by
    intro t ht hm
    simp [jl_gc_mark_queue_obj, ht, hm]
  refine ⟨by rw [h1], by rw [h1]; exact List.mem_cons_self i _, hsub, ?_⟩
  apply hsub
  · rw [phase_preserved_ops, h1]
    exact hphase
  · apply marked_mono_ops
    rw [h1]
    exact List.mem_cons_self i _

/-- Witness for claim C3 at a concrete tracing-phase state and operation
sequence. -/
theorem mark_queue_obj_first_true_then_false_witness :
    tracingLegal (⟨[], GCPhase.RootMark, [], [], 0⟩ : GCState).phase = true ∧
    (4 : ObjId) ∉ (⟨[], GCPhase.RootMark, [], [], 0⟩ : GCState).marked ∧
    (jl_gc_mark_queue_obj ⟨[], GCPhase.RootMark, [], [], 0⟩ 4).2 = true ∧
    jl_gc_mark_queue_obj
        (applyMarkOps (jl_gc_mark_queue_obj ⟨[], GCPhase.RootMark, [], [], 0⟩ 4).1
          [MarkOp.enqObj 9, MarkOp.enqArr 4 [5]]) 4
      = (applyMarkOps (jl_gc_mark_queue_obj ⟨[], GCPhase.RootMark, [], [], 0⟩ 4).1
          [MarkOp.enqObj 9, MarkOp.enqArr 4 [5]], false) := by
  have h := mark_queue_obj_first_true_then_false ⟨[], GCPhase.RootMark, [], [], 0⟩ 4
    [MarkOp.enqObj 9, MarkOp.enqArr 4 [5]] (by decide) (by decide)
  exact ⟨by decide, by decide, h.1, h.2.2.2⟩

/-- Auxiliary: unfolding of `countCleanup` on a cons. -/
theorem countCleanup_cons (i : ObjId) (e : Event) (es : List Event) :
    countCleanup i (e :: es)
      = countCleanup i es + (if e = Event.cleanup i then 1 else 0) := by
  simp [countCleanup, List.countP_cons]

/-- Auxiliary: `countCleanup` distributes over concatenation. -/
theorem countCleanup_append (i : ObjId) (a b : List Event) :
    countCleanup i (a ++ b) = countCleanup i a + countCleanup i b := by
  simp [countCleanup, List.countP_append]

/-- Auxiliary: a list of trace events contains no cleanup events. -/
theorem countCleanup_map_traced (i : ObjId) (ts : List ObjId) :
    countCleanup i (ts.map Event.traced) = 0 := by
  induction ts with
  | nil => rfl
  | cons a t ih => simp [countCleanup_cons, ih]

/-- Auxiliary: unfolding of `sweepEvents` on a cons. -/
theorem sweepEvents_cons (a : ForeignObject) (t : List ForeignObject) (m : List ObjId) :
    sweepEvents (a :: t) m =
      if a.id ∈ m then sweepEvents t m
      else if a.sweepScheduled then
        Event.cleanup a.id :: Event.reclaimed a.id :: sweepEvents t m
      else Event.reclaimed a.id :: sweepEvents t m := by
  rfl

/-- Auxiliary: unfolding of `heapIds` on a cons. -/
theorem heapIds_cons (a : ForeignObject) (t : List ForeignObject) :
    heapIds (a :: t) = a.id :: heapIds t := by
  rfl

/-- Auxiliary: the sweep phase emits no cleanup for an identifier absent from
the heap. -/
theorem sweep_count_not_mem (h : List ForeignObject) (m : List ObjId) (i : ObjId)
    (hni : i ∉ heapIds h) :
    countCleanup i (sweepEvents h m) = 0 := by
  induction h with
  | nil => rfl
  | cons a t ih =>
    rw [heapIds_cons] at hni
    simp only [List.mem_cons, not_or] at hni
    obtain ⟨hia, hit⟩ := hni
    have iht := ih hit
    rw [sweepEvents_cons]
    by_cases hm : a.id ∈ m
    · simpa [hm] using iht
    · by_cases hf : a.sweepScheduled = true
      · have hne : Event.cleanup a.id ≠ Event.cleanup i := by
          simp
          exact fun he => hia he.symm
        simp [hm, hf, countCleanup_cons, hne, iht]
      · simp [hm, hf, countCleanup_cons, iht]

/-- Auxiliary: the sweep phase emits no cleanup for an identifier whose
objects all have the one-shot flag unset. -/
theorem sweep_count_unscheduled (h : List ForeignObject) (m : List ObjId) (i : ObjId)
    (hs : ∀ o ∈ h, o.id = i → o.sweepScheduled = false) :
    countCleanup i (sweepEvents h m) = 0 := by
  induction h with
  | nil => rfl
  | cons a t ih =>
    have iht := ih (fun o ho => hs o (List.mem_cons_of_mem a ho))
    rw [sweepEvents_cons]
    by_cases hm : a.id ∈ m
    · simpa [hm] using iht
    · by_cases hf : a.sweepScheduled = true
      · have hai : a.id ≠ i := by
          intro he
          rw [hs a (List.mem_cons_self a t) he] at hf
          exact Bool.false_ne_true hf
        have hne : Event.cleanup a.id ≠ Event.cleanup i := by
          simp
          exact hai
        simp [hm, hf, countCleanup_cons, hne, iht]
      · simp [hm, hf, countCleanup_cons, iht]

/-- Auxiliary: the sweep phase contains no trace events. -/
theorem sweep_no_traced (h : List ForeignObject) (m : List ObjId) :
    ∀ e ∈ sweepEvents h m, isTraced e = false := by
  induction h with
  | nil =>
    intro e he
    cases he
  | cons a t ih =>
    intro e he
    rw [sweepEvents_cons] at he
    by_cases hm : a.id ∈ m
    · rw [if_pos hm] at he
      exact ih e he
    · rw [if_neg hm] at he
      by_cases hf : a.sweepScheduled = true
      · rw [if_pos hf] at he
        rcases List.mem_cons.mp he with rfl | he2
        · rfl
        · rcases List.mem_cons.mp he2 with rfl | he3
          · rfl
          · exact ih e he3
      · rw [if_neg hf] at he
        rcases List.mem_cons.mp he with rfl | he2
        · rfl
        · exact ih e he2

/-- Auxiliary: with unique identifiers, the sweep phase invokes cleanup for a
given identifier at most once. -/
theorem sweep_count_le_one (h : List ForeignObject) (m : List ObjId) (i : ObjId)
    (hnd : (heapIds h).Nodup) :
    countCleanup i (sweepEvents h m) ≤ 1 := by
  induction h with
  | nil => exact Nat.zero_le 1
  | cons a t ih =>
    rw [heapIds_cons, List.nodup_cons] at hnd
    obtain ⟨hna, hndt⟩ := hnd
    have iht := ih hndt
    rw [sweepEvents_cons]
    by_cases hm : a.id ∈ m
    · simpa [hm] using iht
    · by_cases hf : a.sweepScheduled = true
      · by_cases hai : a.id = i
        · subst hai
          have h0 : countCleanup a.id (sweepEvents t m) = 0 :=
            sweep_count_not_mem t m a.id hna
          simp [hm, hf, countCleanup_cons, h0]
        · have hne : Event.cleanup a.id ≠ Event.cleanup i := by
            simp
            exact hai
          simpa [hm, hf, countCleanup_cons, hne] using iht
      · simpa [hm, hf, countCleanup_cons] using iht

/-- Auxiliary: with unique identifiers, the sweep phase invokes cleanup
exactly once for a dead object with the one-shot flag set. -/
theorem sweep_count_one (h : List ForeignObject) (m : List ObjId) (i : ObjId)
    (o : ForeignObject) (hnd : (heapIds h).Nodup) (ho : o ∈ h) (hid : o.id = i)
    (hflag : o.sweepScheduled = true) (hm : i ∉ m) :
    countCleanup i (sweepEvents h m) = 1 := by
  induction h with
  | nil => cases ho
  | cons a t ih =>
    rw [heapIds_cons, List.nodup_cons] at hnd
    obtain ⟨hna, hndt⟩ := hnd
    rw [sweepEvents_cons]
    rcases List.mem_cons.mp ho with heq | hot
    · subst heq
      have hmn : o.id ∉ m := by
        rw [hid]
        exact hm
      have h0 : countCleanup i (sweepEvents t m) = 0 := by
        apply sweep_count_not_mem t m i
        rw [← hid]
        exact hna
      rw [if_neg hmn, if_pos hflag]
      simp [countCleanup_cons, hid, h0]
    · have hit : i ∈ heapIds t := by
        rw [← hid]
        exact List.mem_map_of_mem (fun x => x.id) hot
      have hai : a.id ≠ i := fun he => hna (he ▸ hit)
      have iht := ih hndt hot
      by_cases hm2 : a.id ∈ m
      · simpa [hm2] using iht
      · by_cases hf : a.sweepScheduled = true
        · have hne : Event.cleanup a.id ≠ Event.cleanup i := by
            simp
            exact hai
          simpa [hm2, hf, countCleanup_cons, hne] using iht
        · simpa [hm2, hf, countCleanup_cons] using iht

/-- Auxiliary: a cleanup invocation for an identifier implies that identifier
was not marked this cycle. -/
theorem sweep_count_pos_not_marked (h : List ForeignObject) (m : List ObjId) (i : ObjId)
    (hp : 0 < countCleanup i (sweepEvents h m)) : i ∉ m := by
  induction h with
  | nil => simp [sweepEvents, countCleanup] at hp
  | cons a t ih =>
    rw [sweepEvents_cons] at hp
    by_cases hm : a.id ∈ m
    · rw [if_pos hm] at hp
      exact ih hp
    · rw [if_neg hm] at hp
      by_cases hf : a.sweepScheduled = true
      · rw [if_pos hf] at hp
        by_cases hai : a.id = i
        · exact hai ▸ hm
        · rw [countCleanup_cons, countCleanup_cons] at hp
          have hne : Event.cleanup a.id ≠ Event.cleanup i := by
            simp
            exact hai
          simp [hne] at hp
          exact ih hp
      · rw [if_neg hf, countCleanup_cons] at hp
        simp at hp
        exact ih hp

/-- Auxiliary: surviving identifiers are heap identifiers. -/
theorem survivors_ids_subset (h : List ForeignObject) (m : List ObjId) :
    heapIds (h.filter (fun o => decide (o.id ∈ m))) ⊆ heapIds h := by
  unfold heapIds
  exact ((List.filter_sublist h).map (fun o => o.id)).subset

/-- Auxiliary: uniqueness of identifiers is preserved by the sweep phase. -/
theorem survivors_ids_nodup (h : List ForeignObject) (m : List ObjId)
    (hnd : (heapIds h).Nodup) :
    (heapIds (h.filter (fun o => decide (o.id ∈ m)))).Nodup := by
  unfold heapIds at hnd ⊢
  exact List.Nodup.sublist ((List.filter_sublist h).map (fun o => o.id)) hnd

/-- Auxiliary: an unmarked identifier does not survive the cycle. -/
theorem survivors_not_mem (h : List ForeignObject) (m : List ObjId) (i : ObjId)
    (hm : i ∉ m) : i ∉ heapIds (h.filter (fun o => decide (o.id ∈ m))) := by
  intro hmem
  rw [heapIds] at hmem
  obtain ⟨o, hof, hoi⟩ := List.mem_map.mp hmem
  obtain ⟨hoh, hom⟩ := List.mem_filter.mp hof
  rw [decide_eq_true_eq] at hom
  exact hm (hoi ▸ hom)

/-- Auxiliary: setting the one-shot flag preserves the heap identifiers. -/
theorem heapIds_setSweepFlag (h : List ForeignObject) (i : ObjId) :
    heapIds (setSweepFlag h i) = heapIds h := by
  induction h with
  | nil => rfl
  | cons a t ih =>
    show (if a.id = i then ({ a with sweepScheduled := true } : ForeignObject) else a).id ::
        heapIds (setSweepFlag t i) = a.id :: heapIds t
    by_cases hai : a.id = i
    · rw [if_pos hai, ih]
    · rw [if_neg hai, ih]

/-- Auxiliary: scheduling a sweep preserves the heap identifiers. -/
theorem heapIds_scheduleSweepHeap (h : List ForeignObject) (i : ObjId) :
    heapIds (scheduleSweepHeap h i) = heapIds h := by
  unfold scheduleSweepHeap
  split
  · rfl
  · split
    · rfl
    · exact heapIds_setSweepFlag h i

/-- Auxiliary: looking up the object whose one-shot flag was just set. -/
theorem findObj_setSweepFlag (h : List ForeignObject) (i : ObjId) :
    findObj (setSweepFlag h i) i
      = (findObj h i).map (fun o => { o with sweepScheduled := true }) := by
  induction h with
  | nil => rfl
  | cons a t ih =>
    by_cases hai : a.id = i
    · rw [show setSweepFlag (a :: t) i
          = { a with sweepScheduled := true } :: setSweepFlag t i from by
            simp [setSweepFlag, hai]]
      simp only [findObj]
      rw [List.find?_cons_of_pos _ (by simp [hai]),
        List.find?_cons_of_pos _ (by simp [hai])]
      rfl
    · rw [show setSweepFlag (a :: t) i = a :: setSweepFlag t i from by
        simp [setSweepFlag, hai]]
      simp only [findObj]
      rw [List.find?_cons_of_neg _ (by simp [hai]),
        List.find?_cons_of_neg _ (by simp [hai])]
      exact ih

/-- Auxiliary: the cleanup count of a cycle is the cleanup count of its sweep
phase. -/
theorem runCycle_countCleanup (h : List ForeignObject) (roots : List ObjId) (i : ObjId) :
    countCleanup i (runCycle h roots).events
      = countCleanup i (sweepEvents h (runCycle h roots).marked) := by
  show countCleanup i ((tracePhase h roots).2.map Event.traced
      ++ sweepEvents h (tracePhase h roots).1)
    = countCleanup i (sweepEvents h (tracePhase h roots).1)
  rw [countCleanup_append, countCleanup_map_traced, Nat.zero_add]

/-- Auxiliary: unfolding of `runCmds` on a collection command. -/
theorem runCmds_collect (h : List ForeignObject) (roots : List ObjId) (rest : List GCCmd) :
    runCmds h (GCCmd.collect roots :: rest)
      = ((runCmds (runCycle h roots).survivors rest).1,
         (runCycle h roots).events ++ (runCmds (runCycle h roots).survivors rest).2) := by
  rfl

/-- Auxiliary: unfolding of `runCmds` on a schedule command. -/
theorem runCmds_schedule (h : List ForeignObject) (i : ObjId) (rest : List GCCmd) :
    runCmds h (GCCmd.schedule i :: rest) = runCmds (scheduleSweepHeap h i) rest := by
  rfl

/-- Auxiliary: the survivors of a cycle are the marked heap objects. -/
theorem runCycle_survivors (h : List ForeignObject) (roots : List ObjId) :
    (runCycle h roots).survivors
      = h.filter (fun o => decide (o.id ∈ (runCycle h roots).marked)) := by
  rfl

/-- Auxiliary: a run over a heap not containing an identifier never invokes
cleanup for it. -/
theorem runCmds_count_not_mem (cmds : List GCCmd) (h : List ForeignObject) (i : ObjId)
    (hni : i ∉ heapIds h) :
    countCleanup i (runCmds h cmds).2 = 0 := by
  induction cmds generalizing h with
  | nil => rfl
  | cons c rest ih =>
    cases c with
    | collect roots =>
      rw [runCmds_collect, countCleanup_append, runCycle_countCleanup,
        sweep_count_not_mem h _ i hni]
      rw [ih (runCycle h roots).survivors ?_]
      rw [runCycle_survivors]
      intro hmem
      exact hni (survivors_ids_subset h _ hmem)
    | schedule j =>
      rw [runCmds_schedule]
      apply ih
      rw [heapIds_scheduleSweepHeap]
      exact hni

/-- Auxiliary: with unique identifiers, a run invokes cleanup for a given
identifier at most once over the object's entire lifetime. -/
theorem runCmds_count_le_one (cmds : List GCCmd) (h : List ForeignObject) (i : ObjId)
    (hnd : (heapIds h).Nodup) :
    countCleanup i (runCmds h cmds).2 ≤ 1 := by
  induction cmds generalizing h with
  | nil => exact Nat.zero_le 1
  | cons c rest ih =>
    cases c with
    | collect roots =>
      rw [runCmds_collect, countCleanup_append, runCycle_countCleanup]
      by_cases hz : countCleanup i (sweepEvents h (runCycle h roots).marked) = 0
      · rw [hz]
        have hnd2 : (heapIds (runCycle h roots).survivors).Nodup := by
          rw [runCycle_survivors]
          exact survivors_ids_nodup h _ hnd
        simpa using ih (runCycle h roots).survivors hnd2
      · have hpos : 0 < countCleanup i (sweepEvents h (runCycle h roots).marked) :=
          Nat.pos_of_ne_zero hz
        have hnm : i ∉ (runCycle h roots).marked :=
          sweep_count_pos_not_marked h _ i hpos
        have hrest : countCleanup i (runCmds (runCycle h roots).survivors rest).2 = 0 := by
          apply runCmds_count_not_mem
          rw [runCycle_survivors]
          exact survivors_not_mem h _ i hnm
        rw [hrest]
        simpa using sweep_count_le_one h (runCycle h roots).marked i hnd
    | schedule j =>
      rw [runCmds_schedule]
      apply ih
      rw [heapIds_scheduleSweepHeap]
      exact hnd

/-- Auxiliary: scheduling a different identifier preserves the absence of the
one-shot flag on all objects with identifier `i`. -/
theorem unscheduled_preserved_schedule (h : List ForeignObject) (i j : ObjId) (hji : j ≠ i)
    (hs : ∀ o ∈ h, o.id = i → o.sweepScheduled = false) :
    ∀ o ∈ scheduleSweepHeap h j, o.id = i → o.sweepScheduled = false := by
  intro o ho hoi
  unfold scheduleSweepHeap at ho
  split at ho
  · exact hs o ho hoi
  · split at ho
    · exact hs o ho hoi
    · unfold setSweepFlag at ho
      obtain ⟨o2, ho2, hfo⟩ := List.mem_map.mp ho
      by_cases hoj : o2.id = j
      · rw [if_pos hoj] at hfo
        exfalso
        apply hji
        rw [← hoi, ← hfo, ← hoj]
      · rw [if_neg hoj] at hfo
        subst hfo
        exact hs o2 ho2 hoi

/-- Auxiliary: a run that never schedules identifier `i`, over a heap whose
objects with identifier `i` are all unflagged, never invokes cleanup for
`i`. -/
theorem runCmds_count_unscheduled (cmds : List GCCmd) (h : List ForeignObject) (i : ObjId)
    (hs : ∀ o ∈ h, o.id = i → o.sweepScheduled = false)
    (hc : ∀ c ∈ cmds, c ≠ GCCmd.schedule i) :
    countCleanup i (runCmds h cmds).2 = 0 := by
  induction cmds generalizing h with
  | nil => rfl
  | cons c rest ih =>
    have hcr : ∀ c2 ∈ rest, c2 ≠ GCCmd.schedule i :=
      fun c2 hc2 => hc c2 (List.mem_cons_of_mem c hc2)
    cases c with
    | collect roots =>
      rw [runCmds_collect, countCleanup_append, runCycle_countCleanup,
        sweep_count_unscheduled h _ i hs]
      rw [ih (runCycle h roots).survivors ?_ hcr]
      rw [runCycle_survivors]
      intro o ho hoi
      exact hs o (List.mem_of_mem_filter ho) hoi
    | schedule j =>
      have hji : j ≠ i := by
        intro he
        exact hc (GCCmd.schedule j) (List.mem_cons_self _ _) (by rw [he])
      rw [runCmds_schedule]
      exact ih (scheduleSweepHeap h j) (unscheduled_preserved_schedule h i j hji hs) hcr

/-- Claim C2: over any run of collection cycles and schedule calls on a heap
with unique identifiers, a foreign object whose identifier is never passed to
`scheduleSweep` (its objects start unflagged and no schedule command targets
it) never has its cleanup function invoked — its storage is reclaimed
silently — and, in general, the cleanup function for an identifier runs at
most once over the object's entire lifetime. -/
theorem cleanup_only_if_scheduled_and_at_most_once (h : List ForeignObject)
    (cmds : List GCCmd) (i : ObjId) (hnd : (heapIds h).Nodup) :
    ((∀ o ∈ h, o.id = i → o.sweepScheduled = false) →
      (∀ c ∈ cmds, c ≠ GCCmd.schedule i) →
      countCleanup i (runCmds h cmds).2 = 0) ∧
    countCleanup i (runCmds h cmds).2 ≤ 1 :=
  ⟨fun hs hc => runCmds_count_unscheduled cmds h i hs hc,
   runCmds_count_le_one cmds h i hnd⟩

/-- Witness for claim C2 at a concrete heap and run: object 0 is never
scheduled across two cycles (one of which schedules and collects object 1)
and its cleanup count is zero. -/
theorem cleanup_only_if_scheduled_witness :
    (heapIds [⟨0, [], false⟩, ⟨1, [], false⟩]).Nodup ∧
    countCleanup 0
      (runCmds [⟨0, [], false⟩, ⟨1, [], false⟩]
        [GCCmd.schedule 1, GCCmd.collect [0], GCCmd.collect []]).2 = 0 ∧
    countCleanup 1
      (runCmds [⟨0, [], false⟩, ⟨1, [], false⟩]
        [GCCmd.schedule 1, GCCmd.collect [0], GCCmd.collect []]).2 ≤ 1 := by
  have h := cleanup_only_if_scheduled_and_at_most_once
    [⟨0, [], false⟩, ⟨1, [], false⟩]
    [GCCmd.schedule 1, GCCmd.collect [0], GCCmd.collect []] 0 (by decide)
  have h2 := cleanup_only_if_scheduled_and_at_most_once
    [⟨0, [], false⟩, ⟨1, [], false⟩]
    [GCCmd.schedule 1, GCCmd.collect [0], GCCmd.collect []] 1 (by decide)
  exact ⟨by decide, h.1 (by decide) (by decide), h2.2⟩

/-- Claim C9: a second `jl_gc_schedule_foreign_sweepfunc` call on the same
object is a no-op reported as a protocol violation: the heap is unchanged,
one violation is reported for diagnostics, the already-set one-shot flag is
not reversed, and over any subsequent run the cleanup function is still
invoked at most once. -/
theorem schedule_sweep_second_call_noop (s : GCState) (i : ObjId) (o : ForeignObject)
    (cmds : List GCCmd)
    (hfind : findObj s.heap i = some o) (hflag : o.sweepScheduled = false) :
    (jl_gc_schedule_foreign_sweepfunc (jl_gc_schedule_foreign_sweepfunc s i) i).heap
      = (jl_gc_schedule_foreign_sweepfunc s i).heap ∧
    (jl_gc_schedule_foreign_sweepfunc (jl_gc_schedule_foreign_sweepfunc s i) i).violations
      = (jl_gc_schedule_foreign_sweepfunc s i).violations + 1 ∧
    findObj (jl_gc_schedule_foreign_sweepfunc (jl_gc_schedule_foreign_sweepfunc s i) i).heap i
      = some { o with sweepScheduled := true } ∧
    ((heapIds s.heap).Nodup →
      countCleanup i (runCmds (jl_gc_schedule_foreign_sweepfunc
        (jl_gc_schedule_foreign_sweepfunc s i) i).heap cmds).2 ≤ 1) := by
  have hs1 : jl_gc_schedule_foreign_sweepfunc s i
      = { s with heap := setSweepFlag s.heap i } := by
    simp [jl_gc_schedule_foreign_sweepfunc, hfind, hflag]
  have hf1 : findObj (setSweepFlag s.heap i) i = some { o with sweepScheduled := true } := by
    rw [findObj_setSweepFlag, hfind]
    rfl
  have hs2 : jl_gc_schedule_foreign_sweepfunc { s with heap := setSweepFlag s.heap i } i
      = { s with heap := setSweepFlag s.heap i, violations := s.violations + 1 } := by
    simp [jl_gc_schedule_foreign_sweepfunc, hf1]
  rw [hs1, hs2]
  refine ⟨rfl, rfl, hf1, ?_⟩
  intro hnd
  apply runCmds_count_le_one
  show (heapIds (setSweepFlag s.heap i)).Nodup
  rw [heapIds_setSweepFlag]
  exact hnd

/-- Witness for claim C9 at a concrete state, scheduling object 0 twice and
then collecting. -/
theorem schedule_sweep_second_call_noop_witness :
    findObj ([⟨0, [], false⟩] : List ForeignObject) 0 = some ⟨0, [], false⟩ ∧
    (jl_gc_schedule_foreign_sweepfunc
        (jl_gc_schedule_foreign_sweepfunc ⟨[⟨0, [], false⟩], GCPhase.Idle, [], [], 0⟩ 0) 0).heap
      = (jl_gc_schedule_foreign_sweepfunc ⟨[⟨0, [], false⟩], GCPhase.Idle, [], [], 0⟩ 0).heap ∧
    (jl_gc_schedule_foreign_sweepfunc
        (jl_gc_schedule_foreign_sweepfunc
          ⟨[⟨0, [], false⟩], GCPhase.Idle, [], [], 0⟩ 0) 0).violations
      = (jl_gc_schedule_foreign_sweepfunc
          ⟨[⟨0, [], false⟩], GCPhase.Idle, [], [], 0⟩ 0).violations + 1 ∧
    countCleanup 0
      (runCmds (jl_gc_schedule_foreign_sweepfunc
        (jl_gc_schedule_foreign_sweepfunc
          ⟨[⟨0, [], false⟩], GCPhase.Idle, [], [], 0⟩ 0) 0).heap [GCCmd.collect []]).2 ≤ 1 := by
  have h := schedule_sweep_second_call_noop ⟨[⟨0, [], false⟩], GCPhase.Idle, [], [], 0⟩ 0
    ⟨0, [], false⟩ [GCCmd.collect []] (by decide) (by decide)
  exact ⟨by decide, h.1, h.2.1, h.2.2.2 (by decide)⟩

/-- Auxiliary: in a cycle's event list every trace event occurs strictly
before every cleanup event, because the trace phase runs to completion before
the sweep phase begins. -/
theorem runCycle_traced_before_cleanup (h : List ForeignObject) (roots : List ObjId)
    (i : ObjId) :
    ∀ j k : Fin (runCycle h roots).events.length,
      isTraced ((runCycle h roots).events.get j) = true →
      (runCycle h roots).events.get k = Event.cleanup i →
      (j : Nat) < (k : Nat) := by
  intro j k hj hk
  have hkA : ((tracePhase h roots).2.map Event.traced).length ≤ (k : Nat) := by
    by_contra hlt
    push_neg at hlt
    have hgk : (runCycle h roots).events.get k
        = ((tracePhase h roots).2.map Event.traced).get ⟨(k : Nat), hlt⟩ :=
      List.get_append (k : Nat) hlt
    have hmem := List.get_mem ((tracePhase h roots).2.map Event.traced) (k : Nat) hlt
    rw [← hgk, hk] at hmem
    obtain ⟨x, -, hx⟩ := List.mem_map.mp hmem
    exact Event.noConfusion hx
  have hjA : (j : Nat) < ((tracePhase h roots).2.map Event.traced).length := by
    by_contra hge
    push_neg at hge
    have hjlt : (j : Nat) - ((tracePhase h roots).2.map Event.traced).length
        < (sweepEvents h (tracePhase h roots).1).length := by
      have hj2 := j.isLt
      have hlen : (runCycle h roots).events.length
          = ((tracePhase h roots).2.map Event.traced).length
            + (sweepEvents h (tracePhase h roots).1).length := by
        show ((tracePhase h roots).2.map Event.traced
            ++ sweepEvents h (tracePhase h roots).1).length = _
        rw [List.length_append]
      omega
    have hgj : (runCycle h roots).events.get j
        = (sweepEvents h (tracePhase h roots).1).get
            ⟨(j : Nat) - ((tracePhase h roots).2.map Event.traced).length, hjlt⟩ :=
      List.get_append_right _ _ hge
    have hmem := List.get_mem (sweepEvents h (tracePhase h roots).1) _ hjlt
    have hft := sweep_no_traced h (tracePhase h roots).1 _ hmem
    rw [← hgj, hj] at hft
    exact Bool.noConfusion hft
  omega

/-- Claim C1: for a foreign object on which `scheduleSweep` has been called
exactly once (its flag was previously unset), a collection cycle in which the
object is not marked invokes its cleanup function exactly once, and the
invocation happens strictly after all of the cycle's trace events — in
particular after all of the object's reachable references have been
traced. -/
theorem scheduled_once_cleanup_exactly_once_after_trace (s : GCState) (i : ObjId)
    (o : ForeignObject) (roots : List ObjId)
    (hnd : (heapIds s.heap).Nodup)
    (hfind : findObj s.heap i = some o) (hflag : o.sweepScheduled = false)
    (hdead : i ∉ (cycleAfterSchedule s i roots).marked) :
    countCleanup i (cycleAfterSchedule s i roots).events = 1 ∧
    (∀ j k : Fin (cycleAfterSchedule s i roots).events.length,
      isTraced ((cycleAfterSchedule s i roots).events.get j) = true →
      (cycleAfterSchedule s i roots).events.get k = Event.cleanup i →
      (j : Nat) < (k : Nat)) := by
  have hs1 : jl_gc_schedule_foreign_sweepfunc s i
      = { s with heap := setSweepFlag s.heap i } := by
    simp [jl_gc_schedule_foreign_sweepfunc, hfind, hflag]
  have hcy : cycleAfterSchedule s i roots = runCycle (setSweepFlag s.heap i) roots := by
    rw [cycleAfterSchedule, hs1]
  have hf1 : findObj (setSweepFlag s.heap i) i
      = some { o with sweepScheduled := true } := by
    rw [findObj_setSweepFlag, hfind]
    rfl
  have ho1 : ({ o with sweepScheduled := true } : ForeignObject) ∈ setSweepFlag s.heap i :=
    List.mem_of_find?_eq_some hf1
  have hps := @List.find?_some ForeignObject (fun x => decide (x.id = i)) o s.heap hfind
  have hoid : o.id = i := of_decide_eq_true hps
  have hid1 : ({ o with sweepScheduled := true } : ForeignObject).id = i := hoid
  have hnd1 : (heapIds (setSweepFlag s.heap i)).Nodup := by
    rw [heapIds_setSweepFlag]
    exact hnd
  rw [hcy] at hdead
  rw [hcy]
  constructor
  · rw [runCycle_countCleanup]
    exact sweep_count_one (setSweepFlag s.heap i) _ i _ hnd1 ho1 hid1 rfl hdead
  · exact runCycle_traced_before_cleanup (setSweepFlag s.heap i) roots i

/-- Witness for claim C1: a two-object heap where object 0 is scheduled once
and then dies in a cycle rooted only at object 1. -/
theorem scheduled_once_cleanup_witness :
    findObj ([⟨0, [1], false⟩, ⟨1, [], false⟩] : List ForeignObject) 0
      = some ⟨0, [1], false⟩ ∧
    (0 : ObjId) ∉ (cycleAfterSchedule
      ⟨[⟨0, [1], false⟩, ⟨1, [], false⟩], GCPhase.Idle, [], [], 0⟩ 0 [1]).marked ∧
    countCleanup 0 (cycleAfterSchedule
      ⟨[⟨0, [1], false⟩, ⟨1, [], false⟩], GCPhase.Idle, [], [], 0⟩ 0 [1]).events = 1 ∧
    (∀ j k : Fin (cycleAfterSchedule
        ⟨[⟨0, [1], false⟩, ⟨1, [], false⟩], GCPhase.Idle, [], [], 0⟩ 0 [1]).events.length,
      isTraced ((cycleAfterSchedule
        ⟨[⟨0, [1], false⟩, ⟨1, [], false⟩], GCPhase.Idle, [], [], 0⟩ 0 [1]).events.get j)
          = true →
      (cycleAfterSchedule
        ⟨[⟨0, [1], false⟩, ⟨1, [], false⟩], GCPhase.Idle, [], [], 0⟩ 0 [1]).events.get k
          = Event.cleanup 0 →
      (j : Nat) < (k : Nat)) := by
  have h := scheduled_once_cleanup_exactly_once_after_trace
    ⟨[⟨0, [1], false⟩, ⟨1, [], false⟩], GCPhase.Idle, [], [], 0⟩ 0 ⟨0, [1], false⟩ [1]
    (by decide) (by decide) (by decide) (by decide)
  exact ⟨by decide, by decide, h.1, h.2⟩

end GCExt
